import Mathlib

/-!
Verification of the narrowband continuum-subtraction scale-factor estimator
and compositor of `ha-continuum-sub.py`, against its natural-language
specification.  Images are embedded as lists of rows of exact rationals;
the bounded nonlinear solver (`scipy.optimize.curve_fit`) is an external
collaborator and is modelled as an explicit function parameter, guarded by
the feasibility checks scipy documents for bounded least squares.
-/

set_option maxHeartbeats 1000000
set_option maxRecDepth 1000000

/-- A 2-D image: a list of rows of exact rational samples. -/
abbrev Image := List (List ℚ)

/-- All samples of an image, row-major (what `np.mean`/`np.median` see). -/
def flatten (img : Image) : List ℚ := img.flatten

/-- `np.mean` of a flat list of samples. -/
def npMean (l : List ℚ) : ℚ := l.sum / l.length

/-- Average absolute deviation of a flat list: mean of `|v - mean|`. -/
def aadL (l : List ℚ) : ℚ := npMean (l.map fun v => |v - npMean l|)

/-- `aad(data)` from the source: `mean = np.mean(data); np.mean(np.abs(data - mean))`. -/
def aad (data : Image) : ℚ := aadL (flatten data)

/-- `np.linspace a b n`: `n` evenly spaced points from `a` to `b` inclusive. -/
def linspace (a b : ℚ) (n : ℕ) : List ℚ :=
  (List.range n).map fun i : ℕ => a + (b - a) * (i : ℚ) / ((n : ℚ) - 1)

/-- `np.argmin`: index of the first occurrence of the minimum value. -/
def argminIdx : List ℚ → ℕ
  | [] => 0
  | [_] => 0
  | x :: y :: ys =>
    if x ≤ (y :: ys).getD (argminIdx (y :: ys)) 0 then 0
    else argminIdx (y :: ys) + 1

/-- `np.min` of a list of samples. -/
def listMin : List ℚ → ℚ
  | [] => 0
  | x :: xs => xs.foldl min x

/-- `l[-1]` on a nonempty list. -/
def lastD (l : List ℚ) : ℚ := l.getD (l.length - 1) 0

/-- `l[0]`. -/
def headD (l : List ℚ) : ℚ := l.getD 0 0

/-- Elementwise combination of two same-structured images (numpy broadcasting
on equal shapes). -/
def zipWith2 (f : ℚ → ℚ → ℚ) (a b : Image) : Image :=
  List.zipWith (List.zipWith f) a b

/-- The region slice `im[y:y+h, x:x+w]` from `compute_c`. -/
def slc (img : Image) (x y w h : ℕ) : Image :=
  ((img.drop y).take h).map fun row => (row.drop x).take w

/-- The subtraction expression evaluated by both search phases:
`nb - (co - c_median) * sf`. -/
def subExpr (nb co : Image) (m sf : ℚ) : Image :=
  zipWith2 (fun n c => n - (c - m) * sf) nb co

/-- `np.linspace(-1, 5, 12)`: the coarse-search coefficients of `find_min`. -/
def coarseFactors : List ℚ := linspace (-1) 5 12

/-- The coarse-phase optimization trace: each sampled coefficient paired
with its AAD value. -/
def coarseTrace (nb co : Image) (m : ℚ) : List (ℚ × ℚ) :=
  coarseFactors.map fun sf => (sf, aad (subExpr nb co m sf))

/-- The coarse-phase AAD samples (`aad_values` in `find_min`). -/
def coarseAads (nb co : Image) (m : ℚ) : List ℚ :=
  (coarseTrace nb co m).map Prod.snd

/-- `find_min`: the coarse coefficient whose AAD sample is minimal. -/
def findMin (nb co : Image) (m : ℚ) : ℚ :=
  coarseFactors.getD (argminIdx (coarseAads nb co m)) 0

/-- The fine-search coefficients of `compute_c`:
`np.linspace(approx_min - 1, approx_min + 1, 40)`. -/
def fineFactors (nb co : Image) (m : ℚ) : List ℚ :=
  linspace (findMin nb co m - 1) (findMin nb co m + 1) 40

/-- The fine-phase optimization trace. -/
def fineTrace (nb co : Image) (m : ℚ) : List (ℚ × ℚ) :=
  (fineFactors nb co m).map fun sf => (sf, aad (subExpr nb co m sf))

/-- The fine-phase AAD samples (`aad_values` in `compute_c`). -/
def fineAads (nb co : Image) (m : ℚ) : List ℚ :=
  (fineTrace nb co m).map Prod.snd

/-- Every AAD evaluation of one estimation call, in order. -/
def fullTrace (nb co : Image) (m : ℚ) : List (ℚ × ℚ) :=
  coarseTrace nb co m ++ fineTrace nb co m

/-- Parameters `(A, s0, eps, B)` of the smooth-V model. -/
structure FitParams where
  A : ℚ
  s0 : ℚ
  eps : ℚ
  B : ℚ
deriving DecidableEq

/-- Failure modes of the external bounded least-squares solver. -/
inductive FitError
  | infeasible
  | divergence
deriving DecidableEq

/-- Everything `compute_c` hands to `curve_fit`: the 40 fine samples, the
initial guess `p0 = [A0, s0_0, eps0, B0]`, and the bounds (`none` is an
infinite upper bound, `np.inf`). -/
structure FitInput where
  xs : List ℚ
  ys : List ℚ
  p0 : List ℚ
  lb : List ℚ
  ub : List (Option ℚ)
deriving DecidableEq

/-- Lower bound strictly below an (optionally infinite) upper bound. -/
def ubLt (l : ℚ) : Option ℚ → Bool
  | none => true
  | some u => decide (l < u)

/-- Value at most an (optionally infinite) upper bound. -/
def leUb (v : ℚ) : Option ℚ → Bool
  | none => true
  | some u => decide (v ≤ u)

/-- scipy `least_squares` precondition: each lower bound strictly less than
the corresponding upper bound. -/
def boundsOrdered (fi : FitInput) : Bool :=
  (fi.lb.zip fi.ub).all fun p => ubLt p.1 p.2

/-- scipy `least_squares` precondition: the initial guess lies within the
bounds. -/
def x0Feasible (fi : FitInput) : Bool :=
  ((fi.p0.zip fi.lb).all fun p => decide (p.2 ≤ p.1)) &&
  ((fi.p0.zip fi.ub).all fun p => leUb p.1 p.2)

/-- `scipy.optimize.curve_fit` with bounds, modelled abstractly: scipy
raises `ValueError` when the bounds are not strictly ordered or the initial
guess is infeasible (its documented precondition checks); past those checks
the solver itself is an arbitrary deterministic function of its input. -/
def curveFit (solver : FitInput → Except FitError FitParams)
    (fi : FitInput) : Except FitError FitParams :=
  if boundsOrdered fi && x0Feasible fi then solver fi else .error .infeasible

/-- The fit problem `compute_c` constructs from the fine-phase trace:
`p0 = [slope_est, scale_factors[argmin], 0.01, min(aad_values)]`,
`lb = [-1, 0, 0, 0]`, `ub = [inf, 2*max_val, inf, inf]`. -/
def fitInputOf (nb co : Image) (m : ℚ) : FitInput where
  xs := fineFactors nb co m
  ys := fineAads nb co m
  p0 := [(lastD (fineAads nb co m) - headD (fineAads nb co m)) /
           (lastD (fineFactors nb co m) - headD (fineFactors nb co m)),
         (fineFactors nb co m).getD (argminIdx (fineAads nb co m)) 0,
         1 / 100,
         listMin (fineAads nb co m)]
  lb := [-1, 0, 0, 0]
  ub := [none, some (2 * (findMin nb co m + 1)), none, none]

/-- `np.clip v lo hi`. -/
def npClip (v lo hi : ℚ) : ℚ := min (max v lo) hi

/-- `compute_c`: slice the region, run the coarse and fine searches, fit the
smooth-V model, and return `clip(s0_opt, 0, 1)`; a solver failure is not
caught and propagates to the caller. -/
def computeC (solver : FitInput → Except FitError FitParams)
    (narrowband continuum : Image) (x y w h : ℕ) (m : ℚ) : Except FitError ℚ :=
  match curveFit solver (fitInputOf (slc narrowband x y w h) (slc continuum x y w h) m) with
  | .error e => .error e
  | .ok p => .ok (npClip p.s0 0 1)

/-- `on_generate`: the continuum-subtracted image is
`emission_data - c * component_data`. -/
def generateCS (emission component : Image) (c : ℚ) : Image :=
  zipWith2 (fun e k => e - c * k) emission component

/-- The subtraction model as the spec states it: `nb - c * (co - baseline)`. -/
def specSubtractionModel (nb co : Image) (b c : ℚ) : Image :=
  zipWith2 (fun n k => n - c * (k - b)) nb co

/-- Add a constant to every sample of an image. -/
def shiftImg (img : Image) (k : ℚ) : Image := img.map (List.map fun v => v + k)

/-- `np.median` of all samples: middle element of the sorted data, or the
average of the two middle elements when the count is even. -/
def npMedian (l : List ℚ) : ℚ :=
  let s := List.insertionSort (fun a b => a ≤ b) l
  if l.length % 2 = 1 then s.getD (l.length / 2) 0
  else (s.getD (l.length / 2 - 1) 0 + s.getD (l.length / 2) 0) / 2

/-- One blended channel from `on_blend`:
`channel + (cs_data - cs_median) * q * adjust`. -/
def blendChannel (ch cs : Image) (med q wk : ℚ) : Image :=
  zipWith2 (fun c v => c + (v - med) * q * wk) ch cs

/-- `on_blend`: blend the continuum-subtracted image into the three channels
and stack the planes first (the `(3, height, width)` array the host expects). -/
def onBlend (r g b cs : Image) (q wr wg wb : ℚ) : Image × Image × Image :=
  (blendChannel r cs (npMedian (flatten cs)) q wr,
   blendChannel g cs (npMedian (flatten cs)) q wg,
   blendChannel b cs (npMedian (flatten cs)) q wb)

/-- The compositor as the spec states it:
`channel_k + (cs - cs_median) * q * w_k` for each channel. -/
def addImg (a b : Image) : Image := zipWith2 (fun u v => u + v) a b

/-- The recentered, scaled continuum-subtracted signal of the spec formula. -/
def scaleShift (cs : Image) (med q wk : ℚ) : Image :=
  cs.map (List.map fun v => (v - med) * q * wk)

/-- Spec-side compositor, compared against `onBlend`. -/
def specComposite (r g b cs : Image) (q wr wg wb : ℚ) : Image × Image × Image :=
  (addImg r (scaleShift cs (npMedian (flatten cs)) q wr),
   addImg g (scaleShift cs (npMedian (flatten cs)) q wg),
   addImg b (scaleShift cs (npMedian (flatten cs)) q wb))

/-- Equal-shape test for two images. -/
def sameShape : Image → Image → Bool
  | [], [] => true
  | r1 :: a, r2 :: b => r1.length == r2.length && sameShape a b
  | _, _ => false

/-- The region check of `on_estimate`: the warning fires exactly when no
selection exists or `selection[2] <= 0 or selection[3] <= 0`. -/
def selectionInvalid : Option (ℤ × ℤ × ℤ × ℤ) → Bool
  | none => true
  | some (_, _, w, h) => decide (w ≤ 0) || decide (h ≤ 0)

/-- A selection rectangle escaping the bounds of an `imgH x imgW` image. -/
def regionOutOfBounds (imgH imgW : ℤ) (sel : ℤ × ℤ × ℤ × ℤ) : Bool :=
  decide (sel.1 < 0) || decide (sel.2.1 < 0) ||
  decide (imgW < sel.1 + sel.2.2.1) || decide (imgH < sel.2.1 + sel.2.2.2)

/-- The progress fractions one search loop emits: `i / (n - 1)` for each of
the `n` samples, in order. -/
def phaseFracs (n : ℕ) : List ℚ :=
  (List.range n).map fun i : ℕ => (i : ℚ) / ((n : ℚ) - 1)

/-- The fractions `find_min` passes to `update_progress`. -/
def coarseFracs : List ℚ := phaseFracs coarseFactors.length

/-- The fractions the fine loop of `compute_c` passes to `update_progress`. -/
def fineFracs (nb co : Image) (m : ℚ) : List ℚ :=
  phaseFracs (fineFactors nb co m).length

/-- All fractions one estimation call emits, coarse phase then fine phase. -/
def estimateFracs (nb co : Image) (m : ℚ) : List ℚ :=
  coarseFracs ++ fineFracs nb co m

/-- A list of fractions that never decreases. -/
def nonDecreasing : List ℚ → Bool
  | [] => true
  | [_] => true
  | a :: b :: t => decide (a ≤ b) && nonDecreasing (b :: t)

/-- A constant image: `hh` rows of `ww` identical samples. -/
def constImage (v : ℚ) (hh ww : ℕ) : Image :=
  List.replicate hh (List.replicate ww v)

lemma argminIdx_lt (l : List ℚ) (h : l ≠ []) : argminIdx l < l.length := by
  induction l with
  | nil => exact absurd rfl h
  | cons x xs ih =>
    cases xs with
    | nil => simp [argminIdx]
    | cons y ys =>
      rw [argminIdx]
      split
      · simp
      · have := ih (List.cons_ne_nil y ys)
        simp only [List.length_cons] at this ⊢
        omega

lemma argminIdx_getD_le (l : List ℚ) (i : ℕ) (hi : i < l.length) :
    l.getD (argminIdx l) 0 ≤ l.getD i 0 := by
  induction l generalizing i with
  | nil => simp at hi
  | cons x xs ih =>
    cases xs with
    | nil =>
      have h0 : i = 0 := by
        simp only [List.length_cons, List.length_nil] at hi
        omega
      subst h0
      simp [argminIdx]
    | cons y ys =>
      rw [argminIdx]
      split
      · rename_i hx
        cases i with
        | zero => simp
        | succ j =>
          simp only [List.getD_cons_zero, List.getD_cons_succ]
          exact le_trans hx (ih j (by simpa using hi))
      · rename_i hx
        cases i with
        | zero =>
          simp only [List.getD_cons_zero, List.getD_cons_succ]
          exact le_of_lt (lt_of_not_le hx)
        | succ j =>
          simp only [List.getD_cons_succ]
          exact ih j (by simpa using hi)

lemma foldl_min_le_acc (xs : List ℚ) (a : ℚ) : xs.foldl min a ≤ a := by
  induction xs generalizing a with
  | nil => simp
  | cons x xs ih => exact le_trans (ih (min a x)) (min_le_left a x)

lemma foldl_min_le_mem (xs : List ℚ) (a y : ℚ) (hy : y ∈ xs) :
    xs.foldl min a ≤ y := by
  induction xs generalizing a with
  | nil => cases hy
  | cons x xs ih =>
    rcases List.mem_cons.mp hy with h | h
    · subst h
      exact le_trans (foldl_min_le_acc xs (min a y)) (min_le_right a y)
    · exact ih (min a x) h

lemma foldl_min_mem (xs : List ℚ) (a : ℚ) :
    xs.foldl min a = a ∨ xs.foldl min a ∈ xs := by
  induction xs generalizing a with
  | nil => exact Or.inl rfl
  | cons x xs ih =>
    rcases ih (min a x) with h | h
    · rcases min_choice a x with h2 | h2
      · exact Or.inl (by rw [List.foldl_cons, h, h2])
      · exact Or.inr (by rw [List.foldl_cons, h, h2]; exact List.mem_cons_self x xs)
    · exact Or.inr (List.mem_cons_of_mem x h)

lemma listMin_le (l : List ℚ) (y : ℚ) (hy : y ∈ l) : listMin l ≤ y := by
  cases l with
  | nil => cases hy
  | cons x xs =>
    rcases List.mem_cons.mp hy with h | h
    · subst h; exact foldl_min_le_acc xs y
    · exact foldl_min_le_mem xs x y h

lemma listMin_mem (l : List ℚ) (h : l ≠ []) : listMin l ∈ l := by
  cases l with
  | nil => exact absurd rfl h
  | cons x xs =>
    rcases foldl_min_mem xs x with h2 | h2
    · rw [listMin, h2]; exact List.mem_cons_self x xs
    · exact List.mem_cons_of_mem x h2

lemma linspace_length (a b : ℚ) (n : ℕ) : (linspace a b n).length = n := by
  rw [linspace, List.length_map, List.length_range]

lemma linspace_getD (a b : ℚ) (n i : ℕ) (hi : i < n) :
    (linspace a b n).getD i 0 = a + (b - a) * i / ((n : ℚ) - 1) := by
  have h1 : i < (linspace a b n).length := by rw [linspace_length]; exact hi
  rw [List.getD_eq_getElem _ _ h1]
  simp [linspace]

lemma sum_map_add_const (l : List ℚ) (k : ℚ) :
    (l.map fun v => v + k).sum = l.sum + l.length * k := by
  induction l with
  | nil => simp
  | cons x xs ih =>
    simp only [List.map_cons, List.sum_cons, ih, List.length_cons]
    push_cast
    ring

lemma npMean_map_add (l : List ℚ) (k : ℚ) (h : l ≠ []) :
    npMean (l.map fun v => v + k) = npMean l + k := by
  have hn : (l.length : ℚ) ≠ 0 := by
    simp only [ne_eq, Nat.cast_eq_zero, List.length_eq_zero]
    exact h
  rw [npMean, npMean, List.length_map, sum_map_add_const]
  field_simp
  ring

lemma aadL_shift (l : List ℚ) (k : ℚ) :
    aadL (l.map fun v => v + k) = aadL l := by
  cases l with
  | nil => rfl
  | cons x xs =>
    rw [aadL, aadL, npMean_map_add _ _ (by simp), List.map_map]
    congr 1
    apply List.map_congr_left
    intro v _
    simp only [Function.comp_apply]
    congr 1
    ring

lemma flatten_shift (d : Image) (k : ℚ) :
    flatten (shiftImg d k) = (flatten d).map fun v => v + k := by
  rw [shiftImg, flatten, flatten]
  exact (List.map_flatten _ _).symm

lemma aad_shift (d : Image) (k : ℚ) : aad (shiftImg d k) = aad d := by
  rw [aad, aad, flatten_shift, aadL_shift]

lemma subExpr_shift (nb co : Image) (m sf : ℚ) :
    subExpr nb co m sf = shiftImg (subExpr nb co 0 sf) (m * sf) := by
  simp only [subExpr, shiftImg, zipWith2, List.map_zipWith]
  congr 1
  funext a b
  congr 1
  funext n c
  ring

lemma aad_subExpr_baseline (nb co : Image) (m sf : ℚ) :
    aad (subExpr nb co m sf) = aad (subExpr nb co 0 sf) := by
  rw [subExpr_shift, aad_shift]

lemma coarseAads_eq_map (nb co : Image) (m : ℚ) :
    coarseAads nb co m = coarseFactors.map fun sf => aad (subExpr nb co m sf) := by
  simp [coarseAads, coarseTrace, List.map_map, Function.comp_def]

lemma fineAads_eq_map (nb co : Image) (m : ℚ) :
    fineAads nb co m = (fineFactors nb co m).map fun sf => aad (subExpr nb co m sf) := by
  simp [fineAads, fineTrace, List.map_map, Function.comp_def]

lemma coarseFactors_length : coarseFactors.length = 12 := by
  simp [coarseFactors, linspace_length]

lemma coarseAads_length (nb co : Image) (m : ℚ) :
    (coarseAads nb co m).length = 12 := by
  rw [coarseAads_eq_map, List.length_map, coarseFactors_length]

lemma fineFactors_length (nb co : Image) (m : ℚ) :
    (fineFactors nb co m).length = 40 := by
  rw [fineFactors, linspace_length]

lemma fineAads_length (nb co : Image) (m : ℚ) :
    (fineAads nb co m).length = 40 := by
  rw [fineAads_eq_map, List.length_map, fineFactors_length]

lemma computeC_eq (solver : FitInput → Except FitError FitParams)
    (narrowband continuum : Image) (x y w h : ℕ) (m : ℚ) :
    computeC solver narrowband continuum x y w h m =
      match curveFit solver (fitInputOf (slc narrowband x y w h) (slc continuum x y w h) m) with
      | .error e => .error e
      | .ok p => .ok (npClip p.s0 0 1) := rfl

/-- C10: in exact arithmetic the AAD objective is invariant under adding a
constant to every sample, so the baseline median influences neither search
phase, nor the fit problem handed to the solver, nor the returned scale
factor. -/
theorem baseline_independence (d : Image) (k : ℚ) (narrowband continuum : Image)
    (x y w h : ℕ) (m1 m2 : ℚ) (solver : FitInput → Except FitError FitParams) :
    aad (shiftImg d k) = aad d ∧
    coarseAads (slc narrowband x y w h) (slc continuum x y w h) m1 =
      coarseAads (slc narrowband x y w h) (slc continuum x y w h) m2 ∧
    findMin (slc narrowband x y w h) (slc continuum x y w h) m1 =
      findMin (slc narrowband x y w h) (slc continuum x y w h) m2 ∧
    fineAads (slc narrowband x y w h) (slc continuum x y w h) m1 =
      fineAads (slc narrowband x y w h) (slc continuum x y w h) m2 ∧
    fitInputOf (slc narrowband x y w h) (slc continuum x y w h) m1 =
      fitInputOf (slc narrowband x y w h) (slc continuum x y w h) m2 ∧
    computeC solver narrowband continuum x y w h m1 =
      computeC solver narrowband continuum x y w h m2 := by
  set A := slc narrowband x y w h with hA
  set B := slc continuum x y w h with hB
  have key : ∀ sf, aad (subExpr A B m1 sf) = aad (subExpr A B m2 sf) := by
    intro sf
    rw [aad_subExpr_baseline, aad_subExpr_baseline A B m2]
  have hCoarse : coarseAads A B m1 = coarseAads A B m2 := by
    rw [coarseAads_eq_map, coarseAads_eq_map]
    exact List.map_congr_left fun sf _ => key sf
  have hFind : findMin A B m1 = findMin A B m2 := by
    rw [findMin, findMin, hCoarse]
  have hFineF : fineFactors A B m1 = fineFactors A B m2 := by
    rw [fineFactors, fineFactors, hFind]
  have hFineA : fineAads A B m1 = fineAads A B m2 := by
    rw [fineAads_eq_map, fineAads_eq_map, hFineF]
    exact List.map_congr_left fun sf _ => key sf
  have hFit : fitInputOf A B m1 = fitInputOf A B m2 := by
    rw [fitInputOf, fitInputOf, hFineF, hFineA, hFind]
  exact ⟨aad_shift d k, hCoarse, hFind, hFineA, hFit, by
    rw [computeC_eq, computeC_eq, ← hA, ← hB, hFit]⟩

/-- C1: whenever the bounded fit succeeds, the fine phase sampled the AAD
objective at exactly 40 evenly spaced coefficients spanning
`[c0 - 1, c0 + 1]` around the coarse minimum `c0`, handed the solver the
initial guesses `[secant slope, coefficient at argmin, 0.01, min sample]`
and the bounds `A in [-1, inf)`, `s0 in [0, 2*(c0+1)]`, `eps in [0, inf)`,
`B in [0, inf)`, and the call returns exactly `clip(fitted s0, 0, 1)`: a
value in `[0, 1]` that equals `1` whenever the fitted vertex exceeds `1`. -/
theorem fine_fit_spec (narrowband continuum : Image) (x y w h : ℕ) (m : ℚ)
    (solver : FitInput → Except FitError FitParams) (p : FitParams)
    (hfit : curveFit solver
        (fitInputOf (slc narrowband x y w h) (slc continuum x y w h) m) =
      Except.ok p) :
    (fitInputOf (slc narrowband x y w h) (slc continuum x y w h) m).xs.length = 40 ∧
    (∀ i : ℕ, i < 40 →
      (fitInputOf (slc narrowband x y w h) (slc continuum x y w h) m).xs.getD i 0 =
        (findMin (slc narrowband x y w h) (slc continuum x y w h) m - 1) +
          2 * (i : ℚ) / 39) ∧
    (fitInputOf (slc narrowband x y w h) (slc continuum x y w h) m).p0 =
      [((fitInputOf (slc narrowband x y w h) (slc continuum x y w h) m).ys.getD 39 0 -
          (fitInputOf (slc narrowband x y w h) (slc continuum x y w h) m).ys.getD 0 0) /
         ((fitInputOf (slc narrowband x y w h) (slc continuum x y w h) m).xs.getD 39 0 -
          (fitInputOf (slc narrowband x y w h) (slc continuum x y w h) m).xs.getD 0 0),
       (fitInputOf (slc narrowband x y w h) (slc continuum x y w h) m).xs.getD
         (argminIdx (fitInputOf (slc narrowband x y w h) (slc continuum x y w h) m).ys) 0,
       1 / 100,
       listMin (fitInputOf (slc narrowband x y w h) (slc continuum x y w h) m).ys] ∧
    (∀ i : ℕ, i < 40 →
      (fitInputOf (slc narrowband x y w h) (slc continuum x y w h) m).ys.getD
          (argminIdx (fitInputOf (slc narrowband x y w h) (slc continuum x y w h) m).ys) 0 ≤
        (fitInputOf (slc narrowband x y w h) (slc continuum x y w h) m).ys.getD i 0) ∧
    ((∀ v ∈ (fitInputOf (slc narrowband x y w h) (slc continuum x y w h) m).ys,
        listMin (fitInputOf (slc narrowband x y w h) (slc continuum x y w h) m).ys ≤ v) ∧
      listMin (fitInputOf (slc narrowband x y w h) (slc continuum x y w h) m).ys ∈
        (fitInputOf (slc narrowband x y w h) (slc continuum x y w h) m).ys) ∧
    (fitInputOf (slc narrowband x y w h) (slc continuum x y w h) m).lb = [-1, 0, 0, 0] ∧
    (fitInputOf (slc narrowband x y w h) (slc continuum x y w h) m).ub =
      [none, some (2 * (findMin (slc narrowband x y w h) (slc continuum x y w h) m + 1)),
       none, none] ∧
    computeC solver narrowband continuum x y w h m = Except.ok (npClip p.s0 0 1) ∧
    (0 ≤ npClip p.s0 0 1 ∧ npClip p.s0 0 1 ≤ 1) ∧
    (1 < p.s0 → npClip p.s0 0 1 = 1) := by
  set A := slc narrowband x y w h with hA
  set B := slc continuum x y w h with hB
  refine ⟨?_, ?_, ?_, ?_, ⟨?_, ?_⟩, rfl, rfl, ?_, ⟨?_, ?_⟩, ?_⟩
  · show (fineFactors A B m).length = 40
    exact fineFactors_length A B m
  · intro i hi
    show (fineFactors A B m).getD i 0 = _
    rw [fineFactors, linspace_getD _ _ _ _ hi]
    have h39 : ((40 : ℕ) : ℚ) - 1 = 39 := by norm_num
    rw [h39]
    ring
  · have hys : (fineAads A B m).length = 40 := fineAads_length A B m
    have hxs : (fineFactors A B m).length = 40 := fineFactors_length A B m
    simp only [fitInputOf]
    rw [lastD, lastD, headD, headD, hys, hxs]
  · intro i hi
    exact argminIdx_getD_le (fineAads A B m) i (by rw [fineAads_length]; exact hi)
  · intro v hv
    exact listMin_le (fineAads A B m) v hv
  · refine listMin_mem (fineAads A B m) ?_
    intro hnil
    have := fineAads_length A B m
    rw [hnil] at this
    simp at this
  · rw [computeC_eq, ← hA, ← hB, hfit]
  · exact le_min (le_max_right p.s0 0) zero_le_one
  · exact min_le_right _ 1
  · intro hs
    rw [npClip, max_eq_left (le_of_lt (lt_trans zero_lt_one hs)),
      min_eq_right (le_of_lt hs)]

/-- Witness for `fine_fit_spec`: a concrete 1 x 2 region with narrowband
equal to continuum, baseline 0, and a solver answering a vertex above 1;
the fit hypothesis is discharged by computation and the returned scale
factor is exactly 1. -/
theorem fine_fit_spec_witness :
    curveFit (fun _ => Except.ok ⟨0, 2, 0, 0⟩)
        (fitInputOf (slc [[0, 2]] 0 0 2 1) (slc [[0, 2]] 0 0 2 1) 0) =
      Except.ok ⟨0, 2, 0, 0⟩ ∧
    computeC (fun _ => Except.ok ⟨0, 2, 0, 0⟩) [[0, 2]] [[0, 2]] 0 0 2 1 0 =
      Except.ok 1 := by
  have hfit : curveFit (fun _ => Except.ok (⟨0, 2, 0, 0⟩ : FitParams))
      (fitInputOf (slc [[0, 2]] 0 0 2 1) (slc [[0, 2]] 0 0 2 1) 0) =
      Except.ok ⟨0, 2, 0, 0⟩ := by
    with_unfolding_all rfl
  have h := (fine_fit_spec [[0, 2]] [[0, 2]] 0 0 2 1 0
      (fun _ => Except.ok ⟨0, 2, 0, 0⟩) ⟨0, 2, 0, 0⟩ hfit).2.2.2.2.2.2.2.1
  refine ⟨hfit, ?_⟩
  rw [h]
  norm_num [npClip]

/-- Counterexample to C3: with a solver that fails to converge, the
estimation call returns the failure itself rather than the coefficient at
the argmin of the fine trace: `compute_c` has no fallback. -/
theorem no_fallback_counterexample :
    computeC (fun _ => Except.error FitError.divergence) [[0, 2]] [[0, 2]] 0 0 2 1 0 =
      Except.error FitError.divergence ∧
    computeC (fun _ => Except.error FitError.divergence) [[0, 2]] [[0, 2]] 0 0 2 1 0 ≠
      Except.ok ((fineFactors (slc [[0, 2]] 0 0 2 1) (slc [[0, 2]] 0 0 2 1) 0).getD
        (argminIdx (fineAads (slc [[0, 2]] 0 0 2 1) (slc [[0, 2]] 0 0 2 1) 0)) 0) := by
  have h1 : computeC (fun _ => Except.error FitError.divergence)
      [[0, 2]] [[0, 2]] 0 0 2 1 0 = Except.error FitError.divergence := by
    with_unfolding_all rfl
  refine ⟨h1, ?_⟩
  rw [h1]
  exact fun hc => Except.noConfusion hc

/-- C3 amended: `compute_c` wraps no handler around the bounded fit, so a
solver failure propagates unchanged to the caller instead of degrading to
the best observed grid sample. -/
theorem fit_failure_propagates (narrowband continuum : Image) (x y w h : ℕ)
    (m : ℚ) (solver : FitInput → Except FitError FitParams) (e : FitError)
    (hfit : curveFit solver
        (fitInputOf (slc narrowband x y w h) (slc continuum x y w h) m) =
      Except.error e) :
    computeC solver narrowband continuum x y w h m = Except.error e := by
  rw [computeC_eq, hfit]

/-- Witness for `fit_failure_propagates` at a concrete region and a solver
that always diverges. -/
theorem fit_failure_propagates_witness :
    curveFit (fun _ => Except.error FitError.divergence)
        (fitInputOf (slc [[0, 4]] 0 0 2 1) (slc [[0, 4]] 0 0 2 1) 0) =
      Except.error FitError.divergence ∧
    computeC (fun _ => Except.error FitError.divergence) [[0, 4]] [[0, 4]] 0 0 2 1 0 =
      Except.error FitError.divergence := by
  have hfit : curveFit (fun _ => Except.error FitError.divergence)
      (fitInputOf (slc [[0, 4]] 0 0 2 1) (slc [[0, 4]] 0 0 2 1) 0) =
      Except.error FitError.divergence := by
    with_unfolding_all rfl
  exact ⟨hfit, fit_failure_propagates [[0, 4]] [[0, 4]] 0 0 2 1 0 _ _ hfit⟩

lemma zipWith_replicate_same {α β γ : Type} (f : α → β → γ) (n : ℕ) (a : α) (b : β) :
    List.zipWith f (List.replicate n a) (List.replicate n b) =
      List.replicate n (f a b) := by
  induction n with
  | zero => rfl
  | succ k ih => simp [List.replicate_succ, ih]

lemma zipWith2_const (f : ℚ → ℚ → ℚ) (hh ww : ℕ) (a b : ℚ) :
    zipWith2 f (constImage a hh ww) (constImage b hh ww) =
      constImage (f a b) hh ww := by
  rw [zipWith2, constImage, constImage, constImage,
    zipWith_replicate_same, zipWith_replicate_same]

lemma subExpr_const (a b m sf : ℚ) (hh ww : ℕ) :
    subExpr (constImage a hh ww) (constImage b hh ww) m sf =
      constImage (a - (b - m) * sf) hh ww := by
  rw [subExpr]
  exact zipWith2_const _ hh ww a b

lemma flatten_const (v : ℚ) (hh ww : ℕ) :
    flatten (constImage v hh ww) = List.replicate (hh * ww) v := by
  induction hh with
  | zero => simp [constImage, flatten]
  | succ k ih =>
    rw [constImage, List.replicate_succ, flatten, List.flatten_cons]
    rw [show (List.replicate k (List.replicate ww v)).flatten =
      flatten (constImage v k ww) from rfl, ih, ← List.replicate_add]
    congr 1
    ring

lemma npMean_replicate_pos (n : ℕ) (v : ℚ) (hn : n ≠ 0) :
    npMean (List.replicate n v) = v := by
  have h : (n : ℚ) ≠ 0 := Nat.cast_ne_zero.mpr hn
  rw [npMean, List.sum_replicate, List.length_replicate, nsmul_eq_mul]
  exact mul_div_cancel_left₀ v h

lemma aadL_replicate (n : ℕ) (v : ℚ) : aadL (List.replicate n v) = 0 := by
  cases n with
  | zero => simp [aadL, npMean]
  | succ k =>
    rw [aadL, npMean_replicate_pos _ _ (Nat.succ_ne_zero k), List.map_replicate]
    simp [npMean, List.sum_replicate]

lemma aad_const (v : ℚ) (hh ww : ℕ) : aad (constImage v hh ww) = 0 := by
  rw [aad, flatten_const, aadL_replicate]

lemma slc_const_full (v : ℚ) (hh ww : ℕ) :
    slc (constImage v hh ww) 0 0 ww hh = constImage v hh ww := by
  simp [slc, constImage, List.take_replicate, List.map_replicate]

lemma map_aad_const_zero (l : List ℚ) (a b m : ℚ) (hh ww : ℕ) :
    (l.map fun sf => aad (subExpr (constImage a hh ww) (constImage b hh ww) m sf)) =
      List.replicate l.length 0 := by
  have h : ∀ sf : ℚ,
      aad (subExpr (constImage a hh ww) (constImage b hh ww) m sf) = 0 :=
    fun sf => by rw [subExpr_const, aad_const]
  calc (l.map fun sf => aad (subExpr (constImage a hh ww) (constImage b hh ww) m sf))
      = l.map fun _ => (0 : ℚ) := List.map_congr_left fun sf _ => h sf
    _ = List.replicate l.length 0 := by simp

lemma coarseAads_const (a b m : ℚ) (hh ww : ℕ) :
    coarseAads (constImage a hh ww) (constImage b hh ww) m = List.replicate 12 0 := by
  rw [coarseAads_eq_map, map_aad_const_zero, coarseFactors_length]

lemma findMin_const (a b m : ℚ) (hh ww : ℕ) :
    findMin (constImage a hh ww) (constImage b hh ww) m = -1 := by
  rw [findMin, coarseAads_const]
  with_unfolding_all rfl

lemma curveFit_infeasible (solver : FitInput → Except FitError FitParams)
    (fi : FitInput) (hb : boundsOrdered fi = false) :
    curveFit solver fi = Except.error FitError.infeasible := by
  rw [curveFit, hb]
  rfl

/-- C5: on the degenerate constant input (continuum 10.0 and narrowband
25.0 over a 50 x 50 region, baseline median 10) every AAD sample is zero,
the coarse argmin lands on -1, and `compute_c` builds a fit problem whose
initial `s0` guess is -2 while the `s0` bounds are `[0, 0]`: the input
violates the documented preconditions of the bounded solver, so the
estimation call errors for every solver instead of returning a scale
factor in `[0, 1]`. -/
theorem degenerate_input_infeasible (solver : FitInput → Except FitError FitParams) :
    findMin (constImage 25 50 50) (constImage 10 50 50) 10 = -1 ∧
    (fitInputOf (constImage 25 50 50) (constImage 10 50 50) 10).p0.getD 1 0 = -2 ∧
    (fitInputOf (constImage 25 50 50) (constImage 10 50 50) 10).lb.getD 1 0 = 0 ∧
    (fitInputOf (constImage 25 50 50) (constImage 10 50 50) 10).ub.getD 1 none = some 0 ∧
    boundsOrdered (fitInputOf (constImage 25 50 50) (constImage 10 50 50) 10) = false ∧
    x0Feasible (fitInputOf (constImage 25 50 50) (constImage 10 50 50) 10) = false ∧
    computeC solver (constImage 25 50 50) (constImage 10 50 50) 0 0 50 50 10 =
      Except.error FitError.infeasible := by
  have hfind : findMin (constImage (25 : ℚ) 50 50) (constImage 10 50 50) 10 = -1 :=
    findMin_const 25 10 10 50 50
  have hfineF : fineFactors (constImage (25 : ℚ) 50 50) (constImage 10 50 50) 10 =
      linspace (-2) 0 40 := by
    rw [fineFactors, hfind]
    norm_num
  have hfineA : fineAads (constImage (25 : ℚ) 50 50) (constImage 10 50 50) 10 =
      List.replicate 40 0 := by
    rw [fineAads_eq_map, hfineF, map_aad_const_zero, linspace_length]
  have hfi : fitInputOf (constImage (25 : ℚ) 50 50) (constImage 10 50 50) 10 =
      { xs := linspace (-2) 0 40
        ys := List.replicate 40 0
        p0 := [0, -2, 1 / 100, 0]
        lb := [-1, 0, 0, 0]
        ub := [none, some 0, none, none] } := by
    rw [fitInputOf, hfineF, hfineA, hfind]
    with_unfolding_all rfl
  have hb : boundsOrdered (fitInputOf (constImage (25 : ℚ) 50 50)
      (constImage 10 50 50) 10) = false := by
    rw [hfi]
    with_unfolding_all rfl
  refine ⟨hfind, ?_, ?_, ?_, hb, ?_, ?_⟩
  · rw [hfi]
    rfl
  · rw [hfi]
    rfl
  · rw [hfi]
    rfl
  · rw [hfi]
    with_unfolding_all rfl
  · rw [computeC_eq, slc_const_full, slc_const_full,
      curveFit_infeasible solver _ hb]

lemma coarseTrace_length (nb co : Image) (m : ℚ) :
    (coarseTrace nb co m).length = 12 := by
  rw [coarseTrace, List.length_map, coarseFactors_length]

lemma fineTrace_length (nb co : Image) (m : ℚ) :
    (fineTrace nb co m).length = 40 := by
  rw [fineTrace, List.length_map, fineFactors_length]

lemma coarseAads_getD (nb co : Image) (m : ℚ) (n : ℕ) (hn : n < 12) :
    (coarseAads nb co m).getD n 0 =
      aad (subExpr nb co m (coarseFactors.getD n 0)) := by
  rw [coarseAads_eq_map,
    List.getD_eq_getElem _ _ (by
      rw [List.length_map, coarseFactors_length]; exact hn),
    List.getElem_map,
    List.getD_eq_getElem _ _ (by rw [coarseFactors_length]; exact hn)]

lemma coarseTrace_fst_getD (nb co : Image) (m : ℚ) (n : ℕ) (hn : n < 12) :
    ((coarseTrace nb co m).getD n ((0 : ℚ), (0 : ℚ))).1 =
      coarseFactors.getD n 0 := by
  rw [coarseTrace,
    List.getD_eq_getElem _ _ (by
      rw [List.length_map, coarseFactors_length]; exact hn),
    List.getElem_map,
    List.getD_eq_getElem coarseFactors 0 (by rw [coarseFactors_length]; exact hn)]

/-- Counterexample to C8: one estimation call evaluates the AAD objective
52 times, not 80: at a concrete region the full optimization trace has
12 + 40 = 52 entries. -/
theorem evaluation_counts_counterexample :
    (fullTrace (slc [[(2 : ℚ)]] 0 0 1 1) (slc [[(2 : ℚ)]] 0 0 1 1) 0).length = 52 ∧
    (fullTrace (slc [[(2 : ℚ)]] 0 0 1 1) (slc [[(2 : ℚ)]] 0 0 1 1) 0).length ≠ 80 := by
  have h : (fullTrace (slc [[(2 : ℚ)]] 0 0 1 1) (slc [[(2 : ℚ)]] 0 0 1 1) 0).length
      = 52 := by
    rw [fullTrace, List.length_append, coarseTrace_length, fineTrace_length]
  refine ⟨h, ?_⟩
  rw [h]
  norm_num

/-- C8 amended: one estimation call evaluates the AAD objective exactly
12 + 40 = 52 times: 12 coarse samples at evenly spaced coefficients over
`[-1, 5]` (the coarse phase returning a sampled coefficient of minimal AAD)
followed by 40 fine samples, and the fit consumes exactly the fine trace:
no further AAD evaluations exist. -/
theorem evaluation_counts (narrowband continuum : Image) (x y w h : ℕ) (m : ℚ)
    (i j : ℕ) (hi : i < 12) (hj : j < 12) :
    (fullTrace (slc narrowband x y w h) (slc continuum x y w h) m).length = 52 ∧
    (coarseTrace (slc narrowband x y w h) (slc continuum x y w h) m).length = 12 ∧
    (fineTrace (slc narrowband x y w h) (slc continuum x y w h) m).length = 40 ∧
    ((coarseTrace (slc narrowband x y w h) (slc continuum x y w h) m).getD i
        ((0 : ℚ), (0 : ℚ))).1 = -1 + 6 * (i : ℚ) / 11 ∧
    findMin (slc narrowband x y w h) (slc continuum x y w h) m ∈ coarseFactors ∧
    aad (subExpr (slc narrowband x y w h) (slc continuum x y w h) m
        (findMin (slc narrowband x y w h) (slc continuum x y w h) m)) ≤
      (coarseAads (slc narrowband x y w h) (slc continuum x y w h) m).getD j 0 ∧
    (fitInputOf (slc narrowband x y w h) (slc continuum x y w h) m).xs =
      (fineTrace (slc narrowband x y w h) (slc continuum x y w h) m).map Prod.fst ∧
    (fitInputOf (slc narrowband x y w h) (slc continuum x y w h) m).ys =
      (fineTrace (slc narrowband x y w h) (slc continuum x y w h) m).map Prod.snd := by
  set A := slc narrowband x y w h with hA
  set B := slc continuum x y w h with hB
  have haadslen : (coarseAads A B m).length = 12 := coarseAads_length A B m
  have hne : coarseAads A B m ≠ [] := by
    intro hnil
    rw [hnil] at haadslen
    simp at haadslen
  have hidx : argminIdx (coarseAads A B m) < 12 := by
    have := argminIdx_lt (coarseAads A B m) hne
    rwa [haadslen] at this
  refine ⟨?_, coarseTrace_length A B m, fineTrace_length A B m, ?_, ?_, ?_, ?_, rfl⟩
  · rw [fullTrace, List.length_append, coarseTrace_length, fineTrace_length]
  · rw [coarseTrace_fst_getD A B m i hi]
    rw [coarseFactors, linspace_getD _ _ _ _ hi]
    have h11 : ((12 : ℕ) : ℚ) - 1 = 11 := by norm_num
    rw [h11]
    ring
  · rw [findMin, List.getD_eq_getElem _ _ (by rw [coarseFactors_length]; exact hidx)]
    exact List.getElem_mem _
  · have h1 : aad (subExpr A B m (findMin A B m)) =
        (coarseAads A B m).getD (argminIdx (coarseAads A B m)) 0 := by
      rw [coarseAads_getD A B m _ hidx]
      rfl
    rw [h1]
    exact argminIdx_getD_le (coarseAads A B m) j (by rw [haadslen]; exact hj)
  · show fineFactors A B m = _
    rw [fineTrace, List.map_map]
    have hcomp : (Prod.fst ∘ fun sf : ℚ => (sf, aad (subExpr A B m sf))) =
        fun a : ℚ => a := rfl
    rw [hcomp, List.map_id']

/-- Witness for `evaluation_counts`: a concrete 1 x 1 region; the trace
counts evaluate to 12 + 40 = 52 and the first coarse coefficient to -1. -/
theorem evaluation_counts_witness :
    (fullTrace (slc [[(1 : ℚ)]] 0 0 1 1) (slc [[(1 : ℚ)]] 0 0 1 1) 0).length = 52 ∧
    ((coarseTrace (slc [[(1 : ℚ)]] 0 0 1 1) (slc [[(1 : ℚ)]] 0 0 1 1) 0).getD 0
      ((0 : ℚ), (0 : ℚ))).1 = -1 := by
  have h := evaluation_counts [[(1 : ℚ)]] [[(1 : ℚ)]] 0 0 1 1 0 0 0
    (by norm_num) (by norm_num)
  refine ⟨h.1, ?_⟩
  rw [h.2.2.2.1]
  norm_num

lemma blendChannel_eq_addImg (ch cs : Image) (med q wk : ℚ) :
    blendChannel ch cs med q wk = addImg ch (scaleShift cs med q wk) := by
  rw [blendChannel, addImg, scaleShift, zipWith2, zipWith2]
  rw [List.zipWith_map_right]
  congr 1
  funext a d
  rw [List.zipWith_map_right]

lemma zipWith_left_of_length_eq {α β : Type} (r1 : List α) (r2 : List β)
    (hl : r1.length = r2.length) :
    List.zipWith (fun c _ => c) r1 r2 = r1 := by
  induction r1 generalizing r2 with
  | nil => rfl
  | cons a t ih =>
    cases r2 with
    | nil => simp at hl
    | cons d t2 =>
      show (fun c _ => c) a d :: List.zipWith (fun c _ => c) t t2 = a :: t
      rw [ih t2 (by simpa using hl)]

lemma zipWith2_left_of_sameShape (a d : Image) (hs : sameShape a d = true) :
    zipWith2 (fun c _ => c) a d = a := by
  induction a generalizing d with
  | nil =>
    cases d with
    | nil => rfl
    | cons r2 t2 => simp [sameShape] at hs
  | cons r t ih =>
    cases d with
    | nil => simp [sameShape] at hs
    | cons r2 t2 =>
      simp only [sameShape, Bool.and_eq_true, beq_iff_eq] at hs
      show List.zipWith (fun c _ => c) r r2 :: zipWith2 (fun c _ => c) t t2 = r :: t
      rw [zipWith_left_of_length_eq r r2 hs.1, ih t2 hs.2]

/-- C4: `on_blend` computes exactly the spec formula
`channel_k + (cs - median cs) * q * w_k` for the three planes-first
channels, and with overall strength `q = 0` it returns the input channels
unchanged. -/
theorem composite_spec (r g b cs : Image) (q wr wg wb : ℚ)
    (hr : sameShape r cs = true) (hg : sameShape g cs = true)
    (hb : sameShape b cs = true) :
    onBlend r g b cs q wr wg wb = specComposite r g b cs q wr wg wb ∧
    onBlend r g b cs 0 wr wg wb = (r, g, b) := by
  constructor
  · rw [onBlend, specComposite, blendChannel_eq_addImg, blendChannel_eq_addImg,
      blendChannel_eq_addImg]
  · rw [onBlend]
    have hzero : ∀ (ch : Image) (wk : ℚ), sameShape ch cs = true →
        blendChannel ch cs (npMedian (flatten cs)) 0 wk = ch := by
      intro ch wk hs
      rw [blendChannel]
      have hfun : (fun c v => c + (v - npMedian (flatten cs)) * 0 * wk) =
          fun (c : ℚ) (_ : ℚ) => c := by
        funext c v
        ring
      rw [hfun]
      exact zipWith2_left_of_sameShape ch cs hs
    rw [hzero r wr hr, hzero g wg hg, hzero b wb hb]

/-- Witness for `composite_spec` on concrete 1 x 1 channels. -/
theorem composite_spec_witness :
    (sameShape [[(1 : ℚ)]] [[(7 : ℚ)]] = true ∧
      sameShape [[(2 : ℚ)]] [[(7 : ℚ)]] = true ∧
      sameShape [[(3 : ℚ)]] [[(7 : ℚ)]] = true) ∧
    (onBlend [[(1 : ℚ)]] [[2]] [[3]] [[7]] 5 1 (1 / 2) 0 =
        specComposite [[(1 : ℚ)]] [[2]] [[3]] [[7]] 5 1 (1 / 2) 0 ∧
      onBlend [[(1 : ℚ)]] [[2]] [[3]] [[7]] 0 1 (1 / 2) 0 =
        ([[(1 : ℚ)]], [[(2 : ℚ)]], [[(3 : ℚ)]])) := by
  refine ⟨⟨?_, ?_, ?_⟩, composite_spec [[(1 : ℚ)]] [[2]] [[3]] [[7]] 5 1 (1 / 2) 0 ?_ ?_ ?_⟩ <;> rfl

/-- Counterexample to C2: `on_generate` does not subtract the baseline: at
nb = [[25]], co = [[10]], baseline 10 and c = 1/2 the generated image is
[[20]] while the spec model `nb - c*(co - baseline)` gives [[25]]. -/
theorem generate_baseline_counterexample :
    generateCS [[25]] [[10]] (1 / 2) = [[20]] ∧
    specSubtractionModel [[25]] [[10]] 10 (1 / 2) = [[25]] ∧
    generateCS [[25]] [[10]] (1 / 2) ≠ specSubtractionModel [[25]] [[10]] 10 (1 / 2) := by
  have h1 : generateCS [[(25 : ℚ)]] [[10]] (1 / 2) = [[20]] := by
    with_unfolding_all rfl
  have h2 : specSubtractionModel [[(25 : ℚ)]] [[10]] 10 (1 / 2) = [[25]] := by
    with_unfolding_all rfl
  refine ⟨h1, h2, ?_⟩
  rw [h1, h2]
  intro hc
  simp only [List.cons.injEq, and_true] at hc
  norm_num at hc

/-- C2 amended: the image handed to the compositor is `nb - c*co`: the
baseline is not subtracted at generation time; for every baseline `b` the
spec model `nb - c*(co - b)` (which is the expression both search phases
minimize) differs from it only by the constant `c*b` per pixel and so has
exactly the same AAD. -/
theorem generate_model_relation (nb co : Image) (b c : ℚ) :
    specSubtractionModel nb co b c = shiftImg (generateCS nb co c) (c * b) ∧
    aad (specSubtractionModel nb co b c) = aad (generateCS nb co c) ∧
    specSubtractionModel nb co b c = subExpr nb co b c := by
  have h1 : specSubtractionModel nb co b c = shiftImg (generateCS nb co c) (c * b) := by
    simp only [specSubtractionModel, generateCS, shiftImg, zipWith2, List.map_zipWith]
    congr 1
    funext a d
    congr 1
    funext n k
    ring
  have h3 : specSubtractionModel nb co b c = subExpr nb co b c := by
    have hfun : (fun n k : ℚ => n - c * (k - b)) = fun n k : ℚ => n - (k - b) * c := by
      funext n k
      ring
    rw [specSubtractionModel, subExpr, hfun]
  exact ⟨h1, by rw [h1, aad_shift], h3⟩

/-- Counterexample to C6: the selection (100, 100, 10, 10) lies entirely
outside a 50 x 50 image yet passes the validation of `on_estimate`, which
checks only that a selection exists and that its width and height are
positive: rejection is not equivalent to the spec's three conditions. -/
theorem region_validation_counterexample :
    selectionInvalid (some (100, 100, 10, 10)) = false ∧
    regionOutOfBounds 50 50 (100, 100, 10, 10) = true ∧
    ¬ (selectionInvalid (some (100, 100, 10, 10)) = true ↔
        ((10 : ℤ) ≤ 0 ∨ (10 : ℤ) ≤ 0 ∨
          regionOutOfBounds 50 50 (100, 100, 10, 10) = true)) := by
  refine ⟨rfl, rfl, ?_⟩
  intro hiff
  have hcontra : selectionInvalid (some (100, 100, 10, 10)) = true :=
    hiff.mpr (Or.inr (Or.inr rfl))
  simp [selectionInvalid] at hcontra

/-- C6 amended: `on_estimate` rejects a selection exactly when it is
absent or its width or height is nonpositive, and this happens before any
AAD evaluation; whether the rectangle lies inside the image bounds is
never checked. -/
theorem region_validation_amended (x y w h : ℤ) :
    (selectionInvalid (some (x, y, w, h)) = true ↔ w ≤ 0 ∨ h ≤ 0) ∧
    selectionInvalid none = true := by
  constructor
  · simp [selectionInvalid]
  · rfl

lemma fineFracs_eq (nb co : Image) (m : ℚ) : fineFracs nb co m = phaseFracs 40 := by
  rw [fineFracs, fineFactors_length]

lemma estimateFracs_eq (nb co : Image) (m : ℚ) :
    estimateFracs nb co m = phaseFracs 12 ++ phaseFracs 40 := by
  rw [estimateFracs, fineFracs_eq, coarseFracs, coarseFactors_length]

/-- Counterexample to C7: across the two phases of one estimation call the
emitted progress fractions are not non-decreasing: the coarse phase ends
at 1 and the fine phase restarts at 0 (entries 11 and 12), although the
final emitted fraction is 1. -/
theorem progress_counterexample :
    (estimateFracs [[(1 : ℚ)]] [[(1 : ℚ)]] 0).getD 11 0 = 1 ∧
    (estimateFracs [[(1 : ℚ)]] [[(1 : ℚ)]] 0).getD 12 0 = 0 ∧
    nonDecreasing (estimateFracs [[(1 : ℚ)]] [[(1 : ℚ)]] 0) = false ∧
    (estimateFracs [[(1 : ℚ)]] [[(1 : ℚ)]] 0).getLast? = some 1 := by
  rw [estimateFracs_eq]
  refine ⟨?_, ?_, ?_, ?_⟩ <;> with_unfolding_all rfl

/-- C7 amended: within each search phase the emitted progress fractions
are non-decreasing and end at 1.0, and the final fraction of the whole
call is 1.0; the combined sequence however restarts at 0 when the fine
phase begins, so it is not non-decreasing as a whole. -/
theorem progress_per_phase (nb co : Image) (m : ℚ) :
    nonDecreasing coarseFracs = true ∧
    coarseFracs.getLast? = some 1 ∧
    nonDecreasing (fineFracs nb co m) = true ∧
    (fineFracs nb co m).getLast? = some 1 ∧
    (estimateFracs nb co m).getLast? = some 1 ∧
    nonDecreasing (estimateFracs nb co m) = false := by
  rw [estimateFracs_eq, fineFracs_eq, coarseFracs, coarseFactors_length]
  refine ⟨?_, ?_, ?_, ?_, ?_, ?_⟩ <;> with_unfolding_all rfl

/-- C9: the AAD objective equals the mean absolute deviation from the mean
over all elements of the array, and is non-negative (finiteness is inherent
to the exact-rational embedding). -/
theorem aad_contract (data : Image) :
    aad data = npMean ((flatten data).map fun v => |v - npMean (flatten data)|) ∧
    0 ≤ aad data := by
  constructor
  · rfl
  · show 0 ≤ aadL (flatten data)
    unfold aadL npMean
    apply div_nonneg
    · exact List.sum_nonneg fun x hx => by
        rcases List.mem_map.mp hx with ⟨v, _, rfl⟩
        exact abs_nonneg _
    · exact Nat.cast_nonneg _
